import Mathlib

/-!
Verification of the BPMN AI Editor backend's XML validation and repair
pipeline (backend server, `server.js`).  The JavaScript source is embedded
shallowly: strings are `List Char`, JavaScript values that may be
`null`/`undefined`/non-string are `JSVal`, the DOM parser (an external
library) is an oracle `JSVal → ParserOutcome`, and each regular-expression
scan of the source is translated to an explicit matcher that follows the
leftmost, greedy-with-backtracking semantics of JavaScript `String.match`
and `String.replace` with the `g` flag.
-/

set_option maxRecDepth 20000
set_option maxHeartbeats 4000000

namespace BPMN

/-- Named characters, so that quote and apostrophe literals never appear
in the file. -/
def qC : Char := Char.ofNat 34

def apos : Char := Char.ofNat 39

def ltC : Char := Char.ofNat 60

def gtC : Char := Char.ofNat 62

def eqC : Char := Char.ofNat 61

def slashC : Char := Char.ofNat 47

def bangC : Char := Char.ofNat 33

def qmC : Char := Char.ofNat 63

def spC : Char := Char.ofNat 32

/-- A JavaScript value as far as the validators observe one: the code
guards with `!xml || typeof xml !== 'string'`, so we keep the cases that
decide truthiness and string-ness. -/
inductive JSVal where
  | vnull : JSVal
  | vundef : JSVal
  | vbool : Bool → JSVal
  | vnum : Int → JSVal
  | vstr : List Char → JSVal
deriving Repr, DecidableEq

/-- JavaScript truthiness of a `JSVal`. -/
def truthy : JSVal → Bool
  | .vnull => false
  | .vundef => false
  | .vbool b => b
  | .vnum n => n != 0
  | .vstr s => !s.isEmpty

/-- The guard `!xml || typeof xml !== 'string'` of the validators: the
value passes it exactly when it is a non-empty string. -/
def asNonemptyStr : JSVal → Option (List Char)
  | .vstr (c :: cs) => some (c :: cs)
  | _ => none

/-- `isPrefixL n h` : does `h` start with `n`? -/
def isPrefixL : List Char → List Char → Bool
  | [], _ => true
  | _ :: _, [] => false
  | a :: as, b :: bs => a == b && isPrefixL as bs

/-- First occurrence of `needle` in a string, as JavaScript
`String.indexOf`/`match` would find it: returns the part before the match
and the suffix beginning at the match. -/
def findSub (needle : List Char) : List Char → Option (List Char × List Char)
  | [] => if needle.isEmpty then some ([], []) else none
  | c :: cs =>
    if isPrefixL needle (c :: cs) then some ([], c :: cs)
    else (findSub needle cs).map fun pr => (c :: pr.1, pr.2)

/-- JavaScript `String.includes`. -/
def containsSub (needle s : List Char) : Bool := (findSub needle s).isSome

/-- Split a string at the first occurrence of `stop`: the longest prefix free
of `stop`, and the remainder (which starts with `stop` when non-empty).
This is how a greedy `[^x]*` consumes input. -/
def spanNot (stop : Char) : List Char → List Char × List Char
  | [] => ([], [])
  | c :: cs =>
    if c = stop then ([], c :: cs)
    else
      let p := spanNot stop cs
      (c :: p.1, p.2)

/-- `String.prototype.match(re, 'g')` counting, fuelled so that the kernel
can evaluate it: at each position try the matcher; on a match of `k`
consumed characters continue after it, otherwise advance one character. -/
def scanCountF (m : List Char → Option Nat) : Nat → List Char → Nat
  | 0, _ => 0
  | _ + 1, [] => 0
  | fuel + 1, c :: cs =>
    match m (c :: cs) with
    | some k => 1 + scanCountF m fuel (List.drop (k - 1) cs)
    | none => scanCountF m fuel cs

/-- Number of global matches of `m` in `l`. -/
def scanCount (m : List Char → Option Nat) (l : List Char) : Nat :=
  scanCountF m l.length l

/-! ### The tag regexes of `server.js`

Each matcher answers: does the regex match at the head of the list, and if
so how many characters does the JavaScript engine consume (leftmost match,
greedy star with backtracking)?  `none` means no match starting here. -/

/-- `/<[^\/!?][^>]*[^\/]>/` (the `openTagPattern` of `countTags`).  The
engine first tries the greedy split (`[^>]*` up to the first `>`); with
`[^\/]` then standing on that `>`, the literal `>` must match the next
character, which succeeds exactly when two `>` follow the scanned run;
otherwise it backtracks one character into the run, which requires the run
to be non-empty and not to end in a slash. -/
def openTagM (l : List Char) : Option Nat :=
  match l with
  | c0 :: c1 :: rest =>
    if c0 = ltC ∧ ¬(c1 = slashC ∨ c1 = bangC ∨ c1 = qmC) then
      let g := (spanNot gtC rest).1
      match (spanNot gtC rest).2 with
      | _ :: r2 =>
        if r2.head? = some gtC then some (g.length + 4)
        else if ¬g.isEmpty ∧ ¬(g.getLast? = some slashC) then some (g.length + 3)
        else none
      | [] => none
    else none
  | _ => none

/-- `/<\/[^>]+>/` (the `closeTagPattern` of `countTags`). -/
def closeTagM (l : List Char) : Option Nat :=
  match l with
  | c0 :: c1 :: rest =>
    if c0 = ltC ∧ c1 = slashC then
      let g := (spanNot gtC rest).1
      match (spanNot gtC rest).2 with
      | _ :: _ => if ¬g.isEmpty then some (g.length + 3) else none
      | [] => none
    else none
  | _ => none

/-- `/<[^>]+\/>/` (the `selfClosingPattern` of `countTags`): after the
greedy run the engine backtracks once, so the run must have at least two
characters and end in a slash. -/
def selfCloseTagM (l : List Char) : Option Nat :=
  match l with
  | c0 :: rest =>
    if c0 = ltC then
      let g := (spanNot gtC rest).1
      match (spanNot gtC rest).2 with
      | _ :: _ =>
        if 2 ≤ g.length ∧ g.getLast? = some slashC then some (g.length + 2)
        else none
      | [] => none
    else none
  | [] => none

/-- `/<\?xml[^>]*\?>/` (the `xmlDeclarationPattern` of `countTags`). -/
def xmlDeclM (l : List Char) : Option Nat :=
  match l with
  | c0 :: c1 :: c2 :: c3 :: c4 :: rest =>
    if c0 = ltC ∧ c1 = qmC ∧ c2 = Char.ofNat 120 ∧ c3 = Char.ofNat 109 ∧
        c4 = Char.ofNat 108 then
      let g := (spanNot gtC rest).1
      match (spanNot gtC rest).2 with
      | _ :: _ =>
        if ¬g.isEmpty ∧ g.getLast? = some qmC then some (g.length + 6) else none
      | [] => none
    else none
  | _ => none

/-- `/<[^\/!?][^>]*>/` (`allOpenTags` of `validateXMLStructure` and
`analyzeXMLStructure`): matches any opening tag, self-closing included. -/
def allOpenM (l : List Char) : Option Nat :=
  match l with
  | c0 :: c1 :: rest =>
    if c0 = ltC ∧ ¬(c1 = slashC ∨ c1 = bangC ∨ c1 = qmC) then
      match (spanNot gtC rest).2 with
      | _ :: _ => some ((spanNot gtC rest).1.length + 3)
      | [] => none
    else none
  | _ => none

/-- `/<\/[^>]*>/` (`closeTags` of `validateXMLStructure`). -/
def closeStarM (l : List Char) : Option Nat :=
  match l with
  | c0 :: c1 :: rest =>
    if c0 = ltC ∧ c1 = slashC then
      match (spanNot gtC rest).2 with
      | _ :: _ => some ((spanNot gtC rest).1.length + 3)
      | [] => none
    else none
  | _ => none

/-- `/<[^>]*\/>/` (`selfClosingTags` of `validateXMLStructure`). -/
def selfCloseStarM (l : List Char) : Option Nat :=
  match l with
  | c0 :: rest =>
    if c0 = ltC then
      let g := (spanNot gtC rest).1
      match (spanNot gtC rest).2 with
      | _ :: _ =>
        if ¬g.isEmpty ∧ g.getLast? = some slashC then some (g.length + 2)
        else none
      | [] => none
    else none
  | [] => none

/-! ### `countTags` -/

/-- The object returned by `countTags`.  The early non-string return omits
`xmlDeclarations` and `balance`, hence the `Option`s (`none` models the
`undefined` field of that return value). -/
structure TagCounts where
  openTags : Nat
  closeTags : Nat
  selfClosing : Nat
  xmlDeclarations : Option Nat
  valid : Bool
  balance : Option Int
deriving Repr, DecidableEq

/-- `countTags` of `server.js`. -/
def countTags (v : JSVal) : TagCounts :=
  match asNonemptyStr v with
  | none =>
    { openTags := 0, closeTags := 0, selfClosing := 0, xmlDeclarations := none
      valid := false, balance := none }
  | some s =>
    let o := scanCount openTagM s
    let c := scanCount closeTagM s
    let sc := scanCount selfCloseTagM s
    let d := scanCount xmlDeclM s
    { openTags := o, closeTags := c, selfClosing := sc, xmlDeclarations := some d
      valid := o == c, balance := some ((o : Int) - (c : Int)) }

/-! ### `validateXMLStructure` -/

structure BasicVerdict where
  valid : Bool
  error : Option (List Char)
deriving Repr, DecidableEq

def emptyErrMsg : List Char := ("XML is empty or not a string").toList

def missingDefsMsg : List Char := ("Missing BPMN definitions tags").toList

def missingProcMsg : List Char := ("Missing BPMN process tags").toList

def doubledMsg : List Char := ("Invalid XML syntax: double angle brackets").toList

def defsOpenS : List Char := ("<bpmn:definitions").toList

def defsCloseS : List Char := ("</bpmn:definitions>").toList

def procOpenS : List Char := ("<bpmn:process").toList

def procCloseS : List Char := ("</bpmn:process>").toList

def ltltS : List Char := [ltC, ltC]

def gtgtS : List Char := [gtC, gtC]

/-- Counts used by `validateXMLStructure`. -/
def svSelfClosing (s : List Char) : Nat := scanCount selfCloseStarM s

def svAllOpen (s : List Char) : Nat := scanCount allOpenM s

def svClose (s : List Char) : Nat := scanCount closeStarM s

/-- `regularOpenTags = allOpenTags - selfClosingTags` (a JavaScript number,
possibly negative). -/
def svRegularOpen (s : List Char) : Int := (svAllOpen s : Int) - (svSelfClosing s : Int)

/-- The interpolated message for unbalanced tags. -/
def unbalancedMsg (ro : Int) (c sc : Nat) : List Char :=
  ("Unbalanced tags: ").toList ++ (toString ro).toList ++
  (" regular open, ").toList ++ (toString c).toList ++
  (" close, ").toList ++ (toString sc).toList ++
  (" self-closing. Check for unclosed tags near the end of the XML.").toList

/-- `validateXMLStructure` of `server.js` (the current, multi-provider
version: no quote check). -/
def validateXMLStructure (v : JSVal) : BasicVerdict :=
  match asNonemptyStr v with
  | none => ⟨false, some emptyErrMsg⟩
  | some s =>
    if ¬(containsSub defsOpenS s ∧ containsSub defsCloseS s) then
      ⟨false, some missingDefsMsg⟩
    else if ¬(containsSub procOpenS s ∧ containsSub procCloseS s) then
      ⟨false, some missingProcMsg⟩
    else if ¬(svRegularOpen s = (svClose s : Int)) then
      ⟨false, some (unbalancedMsg (svRegularOpen s) (svClose s) (svSelfClosing s))⟩
    else if containsSub ltltS s ∨ containsSub gtgtS s then
      ⟨false, some doubledMsg⟩
    else ⟨true, none⟩

/-! ### `validateBPMNSpecificStructure` -/

def ns1 : List Char :=
  ("xmlns:bpmn=" ++ "\"" ++ "http://www.omg.org/spec/BPMN/20100524/MODEL" ++ "\"").toList

def ns2 : List Char :=
  ("xmlns:bpmndi=" ++ "\"" ++ "http://www.omg.org/spec/BPMN/20100524/DI" ++ "\"").toList

def missingNsMsg (ns : List Char) : List Char :=
  ("Missing required namespace: ").toList ++ ns

def noElementsMsg : List Char := ("No BPMN process elements found").toList

def bpmnElements : List (List Char) :=
  [ ("startEvent").toList, ("endEvent").toList, ("task").toList,
    ("userTask").toList, ("serviceTask").toList, ("scriptTask").toList,
    ("gateway").toList ]

def elemTagS (e : List Char) : List Char := ("<bpmn:").toList ++ e

/-- `validateBPMNSpecificStructure` of `server.js`. -/
def validateBPMNSpecificStructure (v : JSVal) : BasicVerdict :=
  match asNonemptyStr v with
  | none => ⟨false, some emptyErrMsg⟩
  | some s =>
    if ¬containsSub ns1 s then ⟨false, some (missingNsMsg ns1)⟩
    else if ¬containsSub ns2 s then ⟨false, some (missingNsMsg ns2)⟩
    else if ¬(containsSub defsOpenS s ∧ containsSub defsCloseS s) then
      ⟨false, some missingDefsMsg⟩
    else if ¬(containsSub procOpenS s ∧ containsSub procCloseS s) then
      ⟨false, some missingProcMsg⟩
    else if ¬(bpmnElements.any fun e => containsSub (elemTagS e) s) then
      ⟨false, some noElementsMsg⟩
    else ⟨true, none⟩

/-! ### `validateXMLWithParser`

The DOM parser is the external `xmldom` library; its behaviour on a given
input is an oracle: either it returns a document carrying a (possibly
empty) list of `parsererror` texts, or it throws with a message. -/

inductive ParserOutcome where
  | ok : List (List Char) → ParserOutcome
  | exn : List Char → ParserOutcome
deriving Repr, DecidableEq

structure ParserVerdict where
  valid : Bool
  errors : List (List Char)
deriving Repr, DecidableEq

/-- `validateXMLWithParser` of `server.js`, over the parse outcome: error
nodes mean invalid, an exception is caught and becomes a one-element error
list. -/
def validateXMLWithParser : ParserOutcome → ParserVerdict
  | .ok errs => if errs.isEmpty then ⟨true, []⟩ else ⟨false, errs⟩
  | .exn m => ⟨false, [m]⟩

/-- The oracle for a parser that accepts everything; a faithful model of
`xmldom` on genuinely well-formed input. -/
def permissiveParse : JSVal → ParserOutcome := fun _ => .ok []

/-! ### `comprehensiveXMLValidation` -/

structure ValidationDetails where
  basic : BasicVerdict
  parser : ParserVerdict
  tags : TagCounts
  bpmn : BasicVerdict
deriving Repr, DecidableEq

structure Verdict where
  valid : Bool
  error : List Char
  details : ValidationDetails
deriving Repr, DecidableEq

/-- `sep.join` over a list of strings. -/
def joinSep (sep : List Char) : List (List Char) → List Char
  | [] => []
  | [x] => x
  | x :: y :: rest => x ++ sep ++ joinSep sep (y :: rest)

def pipeSep : List Char := (" | ").toList

def commaSep : List Char := (", ").toList

/-- A JavaScript template literal prints `null` for a null value. -/
def jsShowOpt : Option (List Char) → List Char
  | some m => m
  | none => ("null").toList

/-- The `Tags:` diagnostic of the orchestrator.  On the non-string early
return of `countTags`, `balance` is `undefined`: `undefined > 0` is false
and `Math.abs(undefined)` prints `NaN`. -/
def tagsErrMsg (tc : TagCounts) : List Char :=
  (match tc.balance with
   | some b => if b > 0 then ("Unclosed tags").toList else ("Extra closing tags").toList
   | none => ("Extra closing tags").toList) ++
  (" (").toList ++
  (match tc.balance with
   | some b => (toString b.natAbs).toList
   | none => ("NaN").toList) ++
  (")").toList

/-- `comprehensiveXMLValidation` of `server.js`: runs the four component
validators, is valid iff all four are, and joins the failing components'
messages with a pipe, each prefixed by its component name, in the fixed
order Basic, Parser, Tags, BPMN. -/
def comprehensiveXMLValidation (parse : JSVal → ParserOutcome) (xml : JSVal) : Verdict :=
  let basic := validateXMLStructure xml
  let pv := validateXMLWithParser (parse xml)
  let tags := countTags xml
  let bpmn := validateBPMNSpecificStructure xml
  let errs :=
    (if basic.valid then [] else [("Basic: ").toList ++ jsShowOpt basic.error]) ++
    (if pv.valid then [] else [("Parser: ").toList ++ joinSep commaSep pv.errors]) ++
    (if tags.valid then [] else [("Tags: ").toList ++ tagsErrMsg tags]) ++
    (if bpmn.valid then [] else [("BPMN: ").toList ++ jsShowOpt bpmn.error])
  { valid := basic.valid && pv.valid && tags.valid && bpmn.valid
    error := joinSep pipeSep errs
    details := ⟨basic, pv, tags, bpmn⟩ }

/-! ### `sanitizeXML`

Three global regex replaces, in order.  Each matcher returns, for a match
beginning at the head of the list, the number of characters the engine
consumes and the replacement text (the template with the captured groups
substituted). -/

/-- Consume `[^"]*` up to a literal quote and the quote itself. -/
def splitQ (s : List Char) : Option (List Char × List Char) :=
  match (spanNot qC s).2 with
  | _ :: r => some ((spanNot qC s).1, r)
  | [] => none

/-- First replace:
`/="([^"]*)"([^"]*)"([^"]*)"([^"]*)"([^"]*)"([^"]*)"([^>]*)/g` with
template joining the seven groups by apostrophes and appending a quote. -/
def r1Match (l : List Char) : Option (Nat × List Char) :=
  match l with
  | c0 :: c1 :: rest =>
    if c0 = eqC ∧ c1 = qC then
      match splitQ rest with
      | none => none
      | some (g1, r1) =>
        match splitQ r1 with
        | none => none
        | some (g2, r2) =>
          match splitQ r2 with
          | none => none
          | some (g3, r3) =>
            match splitQ r3 with
            | none => none
            | some (g4, r4) =>
              match splitQ r4 with
              | none => none
              | some (g5, r5) =>
                match splitQ r5 with
                | none => none
                | some (g6, r6) =>
                  let g7 := (spanNot gtC r6).1
                  some (2 + g1.length + 1 + g2.length + 1 + g3.length + 1 +
                          g4.length + 1 + g5.length + 1 + g6.length + 1 + g7.length,
                        eqC :: qC :: (g1 ++ apos :: (g2 ++ apos :: (g3 ++ apos ::
                          (g4 ++ apos :: (g5 ++ apos :: (g6 ++ apos ::
                            (g7 ++ [qC]))))))))
    else none
  | _ => none

/-- Second replace: `/="([^"]*)"([^"]*)"([^>]*)/g` with `="$1'$2'$3"`. -/
def r2Match (l : List Char) : Option (Nat × List Char) :=
  match l with
  | c0 :: c1 :: rest =>
    if c0 = eqC ∧ c1 = qC then
      match splitQ rest with
      | none => none
      | some (g1, r1) =>
        match splitQ r1 with
        | none => none
        | some (g2, r2) =>
          let g3 := (spanNot gtC r2).1
          some (2 + g1.length + 1 + g2.length + 1 + g3.length,
                eqC :: qC :: (g1 ++ apos :: (g2 ++ apos :: (g3 ++ [qC]))))
    else none
  | _ => none

/-- JavaScript `\s`, restricted to its ASCII members. -/
def isSpaceJS (c : Char) : Bool :=
  c = spC || c = Char.ofNat 9 || c = Char.ofNat 10 || c = Char.ofNat 13 ||
  c = Char.ofNat 11 || c = Char.ofNat 12

def isAsciiLetter (c : Char) : Bool :=
  (Char.ofNat 97 ≤ c && c ≤ Char.ofNat 122) ||
  (Char.ofNat 65 ≤ c && c ≤ Char.ofNat 90)

/-- A split point `k` of the quote-free run works for the third replace
when the run's character at `k - 1` is no `>` (it plays `[^">]`) and,
after skipping whitespace, a letter follows within the run. -/
def r3Ok (run : List Char) (k : Nat) : Bool :=
  match run.get? (k - 1) with
  | some c =>
    c != gtC &&
      (match ((run.drop k).dropWhile isSpaceJS).head? with
       | some l2 => isAsciiLetter l2
       | none => false)
  | none => false

/-- The backtracking engine tries the longest `[^"]*` first, so the
largest working split point wins. -/
def r3Best (run : List Char) : Option Nat :=
  ((List.range run.length).reverse.find? fun i => r3Ok run (i + 1)).map fun i => i + 1

/-- Third replace: `/=("[^"]*[^">])\s*([a-zA-Z])/g` with `="$1" $2`
(group 1 keeps its leading quote, so the output doubles it). -/
def r3Match (l : List Char) : Option (Nat × List Char) :=
  match l with
  | c0 :: c1 :: rest =>
    if c0 = eqC ∧ c1 = qC then
      let run := (spanNot qC rest).1
      match r3Best run with
      | some k =>
        let sp := (run.drop k).takeWhile isSpaceJS
        match ((run.drop k).dropWhile isSpaceJS).head? with
        | some l2 =>
          some (2 + k + sp.length + 1,
                eqC :: qC :: qC :: (run.take k ++ qC :: spC :: [l2]))
        | none => none
      | none => none
    else none
  | _ => none

/-- Fuelled global `String.replace`: on a match emit the replacement and
continue after the consumed characters, otherwise copy one character. -/
def replaceScanF (m : List Char → Option (Nat × List Char)) : Nat → List Char → List Char
  | 0, l => l
  | _ + 1, [] => []
  | fuel + 1, c :: cs =>
    match m (c :: cs) with
    | some (k, rep) => rep ++ replaceScanF m fuel (List.drop (k - 1) cs)
    | none => c :: replaceScanF m fuel cs

def replaceScan (m : List Char → Option (Nat × List Char)) (l : List Char) : List Char :=
  replaceScanF m l.length l

/-- `sanitizeXML` on a string: the three replaces in source order. -/
def sanitizeStr (s : List Char) : List Char :=
  replaceScan r3Match (replaceScan r2Match (replaceScan r1Match s))

/-- `sanitizeXML` of `server.js`: non-strings and the empty string are
returned unchanged by the guard. -/
def sanitizeXML (v : JSVal) : JSVal :=
  match v with
  | .vstr (c :: cs) => .vstr (sanitizeStr (c :: cs))
  | x => x

/-! ### The rebuild strategy -/

/-- The fixed envelope of repair strategy 2, exactly as the template
literal in the source (trailing blanks included). -/
def envelopePre : List Char :=
  ("<?xml version=\"1.0\" encoding=\"UTF-8\"?>\n" ++
   "<bpmn:definitions xmlns:xsi=\"http://www.w3.org/2001/XMLSchema-instance\" \n" ++
   "                  xmlns:bpmn=\"http://www.omg.org/spec/BPMN/20100524/MODEL\" \n" ++
   "                  xmlns:bpmndi=\"http://www.omg.org/spec/BPMN/20100524/DI\" \n" ++
   "                  xmlns:dc=\"http://www.omg.org/spec/DD/20100524/DC\" \n" ++
   "                  xmlns:di=\"http://www.omg.org/spec/DD/20100524/DI\" \n" ++
   "                  id=\"Definitions_1\" \n" ++
   "                  targetNamespace=\"http://bpmn.io/schema/bpmn\">\n  ").toList

def envelopePost : List Char :=
  ("\n  <bpmndi:BPMNDiagram id=\"BPMNDiagram_1\">\n" ++
   "    <bpmndi:BPMNPlane id=\"BPMNPlane_1\" bpmnElement=\"Process_1\">\n" ++
   "    </bpmndi:BPMNPlane>\n" ++
   "  </bpmndi:BPMNDiagram>\n" ++
   "</bpmn:definitions>").toList

/-- `xmlToValidate.match(/<bpmn:process[\s\S]*?<\/bpmn:process>/)`: from
the first occurrence of the opening marker, lazily up to and including the
first closing marker after it. -/
def processMatch (s : List Char) : Option (List Char) :=
  match findSub procOpenS s with
  | none => none
  | some pr =>
    match findSub procCloseS (pr.2.drop procOpenS.length) with
    | none => none
    | some pr2 => some (procOpenS ++ pr2.1 ++ procCloseS)

/-- Wrap a process section in the minimal valid envelope. -/
def rebuildXML (sec : List Char) : List Char := envelopePre ++ sec ++ envelopePost

/-! ### The repair pipeline of `app.post('/api/chat')` -/

/-- What the driver appends to the user-facing message: nothing, the
simplified-layout note after a successful rebuild, or the invalid note
carrying the final diagnostic. -/
inductive RepairNote where
  | clean : RepairNote
  | simplified : RepairNote
  | failed : List Char → RepairNote
deriving Repr, DecidableEq

/-- The repair pipeline of the current server on a candidate string:
validate; on failure sanitize unconditionally and revalidate; on failure
again, if the sanitized text contains the process marker, extract the
section, rebuild and revalidate; `none` keeps the prior document. -/
def pipelineDriver (parse : JSVal → ParserOutcome) (s : List Char) :
    Option (List Char) × RepairNote :=
  let v1 := comprehensiveXMLValidation parse (.vstr s)
  if v1.valid then (some s, .clean)
  else
    let s2 := sanitizeStr s
    let v2 := comprehensiveXMLValidation parse (.vstr s2)
    if v2.valid then (some s2, .clean)
    else if containsSub procOpenS s2 then
      match processMatch s2 with
      | some sec =>
        let r := rebuildXML sec
        let v3 := comprehensiveXMLValidation parse (.vstr r)
        if v3.valid then (some r, .simplified) else (none, .failed v3.error)
      | none => (none, .failed v2.error)
    else (none, .failed v2.error)

/-- Modelled from the spec: the pipeline policy as claim C6 states it,
sanitizing only when the initial diagnostic mentions quoting, and
otherwise proceeding directly to the rebuild attempt. -/
def quoteConditionalDriver (parse : JSVal → ParserOutcome) (s : List Char) :
    Option (List Char) × RepairNote :=
  let v1 := comprehensiveXMLValidation parse (.vstr s)
  if v1.valid then (some s, .clean)
  else
    let sx := if containsSub (("quote").toList) v1.error then sanitizeStr s else s
    let vx := comprehensiveXMLValidation parse (.vstr sx)
    if vx.valid then (some sx, .clean)
    else
      match processMatch sx with
      | some sec =>
        let r := rebuildXML sec
        let v3 := comprehensiveXMLValidation parse (.vstr r)
        if v3.valid then (some r, .simplified) else (none, .failed v3.error)
      | none => (none, .failed vx.error)

/-- Modelled from the spec (the amended claim C6): validate, on failure
always sanitize and revalidate, on failure again attempt the rebuild of
the sanitized text, accepting the first passing candidate. -/
def alwaysSanitizeDriver (parse : JSVal → ParserOutcome) (s : List Char) :
    Option (List Char) × RepairNote :=
  let v1 := comprehensiveXMLValidation parse (.vstr s)
  if v1.valid then (some s, .clean)
  else
    let s2 := sanitizeStr s
    let v2 := comprehensiveXMLValidation parse (.vstr s2)
    if v2.valid then (some s2, .clean)
    else
      match processMatch s2 with
      | some sec =>
        let r := rebuildXML sec
        let v3 := comprehensiveXMLValidation parse (.vstr r)
        if v3.valid then (some r, .simplified) else (none, .failed v3.error)
      | none => (none, .failed v2.error)

/-! ### The chat request handler -/

/-- The fields of the parsed model response that the handler reads.  The
batch parts are a lookup from index to an optional string (`none` models
an absent `xmlBatch<i>` property). -/
structure LLMFields where
  updatedDiagramXML : JSVal
  response : Option (List Char)
  impactAnalysis : Option (List Char)
  xmlBatched : Bool
  xmlBatchCount : Nat
  xmlBatch : Nat → Option (List Char)

/-- The loop `for (let i = 1; i <= xmlBatchCount; i++)` appending each
present part. -/
def reconstructBatches (f : Nat → Option (List Char)) : Nat → List Char
  | 0 => []
  | n + 1 => reconstructBatches f n ++ ((f (n + 1)).getD [])

/-- The batched-mode handling: when `xmlBatched` and a non-zero
`xmlBatchCount` are present and the reconstruction is non-empty, it
replaces `updatedDiagramXML`. -/
def applyBatching (L : LLMFields) : LLMFields :=
  if L.xmlBatched && L.xmlBatchCount != 0 then
    let r := reconstructBatches L.xmlBatch L.xmlBatchCount
    if r.isEmpty then L else { L with updatedDiagramXML := JSVal.vstr r }
  else L

/-- How the awaited provider call resolves: with response text that parses
to `some` fields (or fails to parse), or by throwing. -/
inductive ProviderSettle where
  | ok : List Char → Option LLMFields → ProviderSettle
  | err : ProviderSettle

structure ChatResponse where
  status : Nat
  responseText : List Char
  updatedDiagramXML : JSVal
deriving Repr, DecidableEq

def timeoutMsg : List Char :=
  ("Request timeout - AI took too long to respond. Please try with a simpler request or try again.").toList

def aiErrMsg : List Char :=
  ("Error: Failed to get response from AI. Please try again.").toList

def noRespMsg : List Char := ("No specific response provided.").toList

def timeoutResponse (d : JSVal) : ChatResponse := ⟨408, timeoutMsg, d⟩

def errorResponse (d : JSVal) : ChatResponse := ⟨500, aiErrMsg, d⟩

/-- The object built when the provider text cannot be parsed as JSON. -/
def parseFailFields (d : JSVal) (raw : List Char) : LLMFields :=
  { updatedDiagramXML := d, response := none
    impactAnalysis := some (("Error: Could not parse AI response. Raw response: ").toList ++ raw)
    xmlBatched := false, xmlBatchCount := 0, xmlBatch := fun _ => none }

def simplifiedNote : List Char :=
  (" [Note: Diagram layout was simplified due to XML issues]").toList

def invalidNote (e : List Char) : List Char :=
  (" [Note: Generated XML was invalid and could not be repaired (").toList ++ e ++
  ("), keeping original diagram]").toList

/-- `llmResponse.response || llmResponse.impactAnalysis || default`. -/
def respTextOf (resp ia : Option (List Char)) : List Char :=
  match resp with
  | some s =>
    if s.isEmpty then (match ia with
      | some t => if t.isEmpty then noRespMsg else t
      | none => noRespMsg)
    else s
  | none =>
    match ia with
    | some t => if t.isEmpty then noRespMsg else t
    | none => noRespMsg

/-- The note appending `llmResponse.response = (llmResponse.response || '') + note`. -/
def appendNote (r : Option (List Char)) (note : List Char) : Option (List Char) :=
  some ((r.getD []) ++ note)

/-- The validation-and-response phase of the handler once the model reply
is in hand: `none` models the `TypeError` thrown by
`xmlToValidate.includes` when `updatedDiagramXML` is a truthy non-string
(caught by the handler's catch). -/
def chatProcess (parse : JSVal → ParserOutcome) (dXML : JSVal) (L0 : LLMFields) :
    Option ChatResponse :=
  let L := applyBatching L0
  if ¬truthy L.updatedDiagramXML then
    some ⟨200, respTextOf L.response L.impactAnalysis, dXML⟩
  else
    match L.updatedDiagramXML with
    | .vstr s =>
      let d := pipelineDriver parse s
      let resp2 := match d.2 with
        | .clean => L.response
        | .simplified => appendNote L.response simplifiedNote
        | .failed e => appendNote L.response (invalidNote e)
      some ⟨200, respTextOf resp2 L.impactAnalysis,
            match d.1 with | some t => .vstr t | none => dXML⟩
    | _ => none

/-- Send a response through the `responseHandled`/`headersSent` guard:
once a response went out, later sends are discarded. -/
def guardSend (st : Bool × List ChatResponse) (r : ChatResponse) :
    Bool × List ChatResponse :=
  if st.1 then st else (true, st.2 ++ [r])

/-- The parsed model reply the handler works with (the parse-failure
object when the text was not valid JSON). -/
def llmOf (dXML : JSVal) (raw : List Char) (parsed : Option LLMFields) : LLMFields :=
  match parsed with
  | some L => L
  | none => parseFailFields dXML raw

/-- One execution of `app.post('/api/chat')`: `timeoutFirst` says whether
the 45-second timer fired before the provider settled (the single-threaded
event loop runs the two continuations in one of the two orders). Returns
the responses sent, in order. -/
def runChat (parse : JSVal → ParserOutcome) (dXML : JSVal) (timeoutFirst : Bool)
    (settle : ProviderSettle) : List ChatResponse :=
  let st0 : Bool × List ChatResponse := (false, [])
  let st1 := if timeoutFirst then guardSend st0 (timeoutResponse dXML) else st0
  let st2 :=
    match settle with
    | .err => guardSend st1 (errorResponse dXML)
    | .ok raw parsed =>
      if st1.1 then st1
      else
        match chatProcess parse dXML (llmOf dXML raw parsed) with
        | some r => guardSend st1 r
        | none => guardSend st1 (errorResponse dXML)
  st2.2

/-! ### Well-matched documents: tags and element trees

Claim C4 quantifies over document text "in which every opening tag has
exactly one matching closing tag".  We realise such documents as the
serialisations of element trees: an element contributes an opening and the
matching closing tag around its children, a self-closing element a single
self-closing tag. -/

inductive Tok where
  | op : List Char → Tok
  | cl : List Char → Tok
  | sc : List Char → Tok
deriving Repr, DecidableEq

/-- The characters of one tag. -/
def tokStr : Tok → List Char
  | .op n => ltC :: (n ++ [gtC])
  | .cl n => ltC :: slashC :: (n ++ [gtC])
  | .sc n => ltC :: (n ++ [slashC, gtC])

/-- Concatenate a tag sequence into document text. -/
def flatToks : List Tok → List Char
  | [] => []
  | t :: ts => tokStr t ++ flatToks ts

def numOp : List Tok → Nat
  | [] => 0
  | .op _ :: ts => numOp ts + 1
  | _ :: ts => numOp ts

def numCl : List Tok → Nat
  | [] => 0
  | .cl _ :: ts => numCl ts + 1
  | _ :: ts => numCl ts

def numSc : List Tok → Nat
  | [] => 0
  | .sc _ :: ts => numSc ts + 1
  | _ :: ts => numSc ts

/-- A tag interior the scan counts reliably: at least two characters (the
open-tag regex `<[^\/!?][^>]*[^\/]>` cannot match fewer), free of the
delimiter characters, not starting like a closing tag, comment or
declaration. -/
def goodNameB (n : List Char) : Bool :=
  2 ≤ n.length &&
  n.all (fun c => !(c == ltC || c == gtC || c == slashC)) &&
  (match n.head? with
   | some c => !(c == bangC || c == qmC)
   | none => false)

def goodTok : Tok → Bool
  | .op n => goodNameB n
  | .cl n => goodNameB n
  | .sc n => goodNameB n

mutual
inductive BTree where
  | elem : List Char → BForest → BTree
  | leaf : List Char → BTree
deriving Repr, DecidableEq

inductive BForest where
  | fnil : BForest
  | fcons : BTree → BForest → BForest
deriving Repr, DecidableEq
end

mutual
/-- The tag sequence of a tree: every opening tag is closed by its own
matching closing tag. -/
def treeToks : BTree → List Tok
  | .elem n f => .op n :: (forestToks f ++ [.cl n])
  | .leaf n => [.sc n]

def forestToks : BForest → List Tok
  | .fnil => []
  | .fcons t f => treeToks t ++ forestToks f
end

/-- The document text of a tree. -/
def serializeTree (t : BTree) : List Char := flatToks (treeToks t)

mutual
def goodTreeB : BTree → Bool
  | .elem n f => goodNameB n && goodForestB f
  | .leaf n => goodNameB n

def goodForestB : BForest → Bool
  | .fnil => true
  | .fcons t f => goodTreeB t && goodForestB f
end

/-! ### Sanitizer match predicate (for the amended claim C5) -/

/-- Does a replace matcher fire anywhere in the string? -/
def hasMatchF (m : List Char → Option (Nat × List Char)) : List Char → Bool
  | [] => false
  | c :: cs => (m (c :: cs)).isSome || hasMatchF m cs

/-- None of the sanitizer's three rewrite patterns matches the text. -/
def noSanitizeMatch (s : List Char) : Bool :=
  !hasMatchF r1Match s && !hasMatchF r2Match s && !hasMatchF r3Match s

/-! ### Scenario predicates for the chat handler claims -/

/-- The requests of claim C2: the provider timed out, threw, or returned a
candidate that no validation or repair strategy accepts. -/
def failureScenario (parse : JSVal → ParserOutcome) (dXML : JSVal) (tf : Bool)
    (settle : ProviderSettle) : Prop :=
  tf = true ∨ settle = ProviderSettle.err ∨
    ∃ raw parsed, settle = ProviderSettle.ok raw parsed ∧
      ∀ s, (applyBatching (llmOf dXML raw parsed)).updatedDiagramXML = JSVal.vstr s →
        (pipelineDriver parse s).1 = none

/-! ### Concrete documents -/

/-- A minimal document that passes the comprehensive validation (under a
parser that accepts this well-formed input). -/
def docC5 : List Char :=
  ("<bpmn:definitions " ++ "xmlns:bpmn=\"http://www.omg.org/spec/BPMN/20100524/MODEL\" " ++
   "xmlns:bpmndi=\"http://www.omg.org/spec/BPMN/20100524/DI\">" ++
   "<bpmn:process><bpmn:startEvent></bpmn:startEvent></bpmn:process></bpmn:definitions>").toList

/-- A candidate whose validation failure does not mention quoting, and
which the sanitizer nevertheless rewrites. -/
def docC6 : List Char :=
  ("<bpmn:process id=\"Pq\"><bpmn:startEvent></bpmn:startEvent></bpmn:process>").toList

/-- The one-element tree with the one-character name `a`: its document
text `<a></a>` is perfectly matched. -/
def treeA : BTree := BTree.elem [Char.ofNat 97] BForest.fnil

/-- A well-matched tree with two-character names. -/
def treeW : BTree :=
  BTree.elem (("ab").toList)
    (BForest.fcons (BTree.leaf (("cd").toList))
      (BForest.fcons (BTree.elem (("ef").toList) BForest.fnil) BForest.fnil))

/-- A model reply in batched mode with two parts, both present. -/
def llmW : LLMFields :=
  { updatedDiagramXML := JSVal.vnull, response := none, impactAnalysis := none
    xmlBatched := true, xmlBatchCount := 2
    xmlBatch := fun i =>
      if i = 1 then some (("ab").toList)
      else if i = 2 then some (("cd").toList)
      else none }

/-! ## Lemmas: substring search -/

lemma isPrefixL_self_append : ∀ (n post : List Char), isPrefixL n (n ++ post) = true := by
  intro n
  induction n with
  | nil => intro post; rfl
  | cons c cs ih => intro post; simp [isPrefixL, ih]

lemma containsSub_of_isPrefixL {needle s : List Char} (h : isPrefixL needle s = true) :
    containsSub needle s = true := by
  cases s with
  | nil =>
    cases needle with
    | nil => rfl
    | cons c cs => simp [isPrefixL] at h
  | cons c cs => simp [containsSub, findSub, h]

lemma containsSub_cons_of (needle : List Char) (c : Char) {cs : List Char}
    (h : containsSub needle cs = true) : containsSub needle (c :: cs) = true := by
  unfold containsSub findSub
  by_cases hp : isPrefixL needle (c :: cs) = true
  · simp [hp]
  · simp only [Bool.not_eq_true] at hp
    simp only [hp, Bool.false_eq_true, if_false]
    unfold containsSub at h
    simp [Option.isSome_map, h]

/-- A string that contains `needle` between `pre` and `post` contains it. -/
lemma containsSub_mid : ∀ (needle pre post : List Char),
    containsSub needle (pre ++ (needle ++ post)) = true := by
  intro needle pre
  induction pre with
  | nil =>
    intro post
    exact containsSub_of_isPrefixL (isPrefixL_self_append needle post)
  | cons c cs ih =>
    intro post
    exact containsSub_cons_of needle c (ih post)

/-! ## Lemmas: list utilities -/

lemma dropLenApp (a b : List Char) (k : Nat) :
    List.drop (a.length + k) (a ++ b) = List.drop k b := by
  induction a with
  | nil => simp
  | cons c cs ih =>
    simp only [List.length_cons, List.cons_append]
    rw [Nat.succ_add]
    simp [ih]

lemma getLast?_mem_of_ne_nil : ∀ (l : List Char), l ≠ [] →
    ∃ c, l.getLast? = some c ∧ c ∈ l := by
  intro l
  induction l with
  | nil => intro h; exact absurd rfl h
  | cons a as ih =>
    intro _
    cases as with
    | nil => exact ⟨a, rfl, by simp⟩
    | cons b bs =>
      obtain ⟨c, hc, hm⟩ := ih (by simp)
      exact ⟨c, by rw [List.getLast?_cons_cons]; exact hc, by simp [hm]⟩

/-! ## Lemmas: the global match counter -/

lemma scanCountF_nil (m : List Char → Option Nat) (f : Nat) : scanCountF m f [] = 0 := by
  cases f <;> rfl

lemma scanCountF_congr (m : List Char → Option Nat) :
    ∀ (n : Nat) (l : List Char) (f1 f2 : Nat), l.length ≤ n → l.length ≤ f1 →
      l.length ≤ f2 → scanCountF m f1 l = scanCountF m f2 l := by
  intro n
  induction n with
  | zero =>
    intro l f1 f2 hn _ _
    have hl : l = [] := List.length_eq_zero.mp (Nat.le_zero.mp hn)
    subst hl
    rw [scanCountF_nil, scanCountF_nil]
  | succ n ih =>
    intro l f1 f2 hn h1 h2
    cases l with
    | nil => rw [scanCountF_nil, scanCountF_nil]
    | cons c cs =>
      cases f1 with
      | zero => simp at h1
      | succ f1 =>
        cases f2 with
        | zero => simp at h2
        | succ f2 =>
          have hcs : cs.length ≤ n := by simp at hn; omega
          have hcs1 : cs.length ≤ f1 := by simp at h1; omega
          have hcs2 : cs.length ≤ f2 := by simp at h2; omega
          cases hm : m (c :: cs) with
          | none =>
            simp only [scanCountF, hm]
            exact ih cs f1 f2 hcs hcs1 hcs2
          | some k =>
            have hd : (List.drop (k - 1) cs).length ≤ cs.length := by
              rw [List.length_drop]; omega
            simp only [scanCountF, hm]
            rw [ih (List.drop (k - 1) cs) f1 f2 (le_trans hd hcs)
              (le_trans hd hcs1) (le_trans hd hcs2)]

lemma scanCount_cons_none {m : List Char → Option Nat} {c : Char} {cs : List Char}
    (h : m (c :: cs) = none) : scanCount m (c :: cs) = scanCount m cs := by
  unfold scanCount
  simp only [List.length_cons, scanCountF, h]

lemma scanCount_cons_some {m : List Char → Option Nat} {c : Char} {cs : List Char} {k : Nat}
    (h : m (c :: cs) = some k) :
    scanCount m (c :: cs) = 1 + scanCount m (List.drop (k - 1) cs) := by
  unfold scanCount
  simp only [List.length_cons, scanCountF, h]
  congr 1
  exact scanCountF_congr m cs.length (List.drop (k - 1) cs) cs.length
    (List.drop (k - 1) cs).length (by rw [List.length_drop]; omega)
    (by rw [List.length_drop]; omega) le_rfl

/-- A matcher that only fires on `<` counts nothing inside a `<`-free
prefix. -/
lemma scanCount_skip (m : List Char → Option Nat)
    (hm : ∀ (c : Char) (l : List Char), ¬ c = ltC → m (c :: l) = none) :
    ∀ (p rest : List Char), (∀ c ∈ p, ¬ c = ltC) →
      scanCount m (p ++ rest) = scanCount m rest := by
  intro p
  induction p with
  | nil => intro rest _; rfl
  | cons c cs ih =>
    intro rest hp
    have h1 : m (c :: (cs ++ rest)) = none := hm c _ (hp c (List.mem_cons_self c cs))
    rw [List.cons_append, scanCount_cons_none h1]
    exact ih rest fun d hd => hp d (List.mem_cons_of_mem c hd)

/-! ## Lemmas: the global replacer -/

lemma hasMatchF_cons_false {m : List Char → Option (Nat × List Char)} {c : Char}
    {cs : List Char} (h : hasMatchF m (c :: cs) = false) :
    m (c :: cs) = none ∧ hasMatchF m cs = false := by
  simp only [hasMatchF, Bool.or_eq_false_iff] at h
  exact ⟨Option.not_isSome_iff_eq_none.mp (by simp [h.1]), h.2⟩

lemma replaceScanF_id (m : List Char → Option (Nat × List Char)) :
    ∀ (l : List Char) (n : Nat), hasMatchF m l = false → replaceScanF m n l = l := by
  intro l
  induction l with
  | nil => intro n _; cases n <;> rfl
  | cons c cs ih =>
    intro n h
    obtain ⟨hm, hrest⟩ := hasMatchF_cons_false h
    cases n with
    | zero => rfl
    | succ n => simp [replaceScanF, hm, ih n hrest]

lemma replaceScan_id {m : List Char → Option (Nat × List Char)} {l : List Char}
    (h : hasMatchF m l = false) : replaceScan m l = l :=
  replaceScanF_id m l l.length h

/-! ## Lemmas: tag matchers on serialised tags -/

lemma spanNot_append (stop : Char) (p r : List Char) (hp : ∀ c ∈ p, ¬ c = stop) :
    spanNot stop (p ++ stop :: r) = (p, stop :: r) := by
  induction p with
  | nil => simp [spanNot]
  | cons c cs ih =>
    have hc : ¬ c = stop := hp c (List.mem_cons_self c cs)
    have ih2 := ih fun d hd => hp d (List.mem_cons_of_mem c hd)
    simp [spanNot, hc, ih2]

lemma goodName_destruct {n : List Char} (h : goodNameB n = true) :
    ∃ c0 c1 rest, n = c0 :: c1 :: rest ∧
      ¬ c0 = bangC ∧ ¬ c0 = qmC ∧
      ∀ c ∈ n, ¬ c = ltC ∧ ¬ c = gtC ∧ ¬ c = slashC := by
  match n with
  | [] => simp [goodNameB] at h
  | [c] => simp [goodNameB] at h
  | c0 :: c1 :: rest =>
    refine ⟨c0, c1, rest, rfl, ?_⟩
    simp only [goodNameB, List.all_eq_true, Bool.and_eq_true, Bool.not_eq_true',
      Bool.or_eq_false_iff, beq_eq_false_iff_ne, ne_eq, List.head?_cons,
      Option.some.injEq] at h
    refine ⟨h.2.1, h.2.2, fun c hc => ?_⟩
    have := h.1.2 c hc
    tauto

lemma openTagM_not_lt {c : Char} (l : List Char) (h : ¬ c = ltC) :
    openTagM (c :: l) = none := by
  cases l with
  | nil => rfl
  | cons c1 rest => simp [openTagM, h]

lemma closeTagM_not_lt {c : Char} (l : List Char) (h : ¬ c = ltC) :
    closeTagM (c :: l) = none := by
  cases l with
  | nil => rfl
  | cons c1 rest => simp [closeTagM, h]

lemma selfCloseTagM_not_lt {c : Char} (l : List Char) (h : ¬ c = ltC) :
    selfCloseTagM (c :: l) = none := by
  simp [selfCloseTagM, h]

/-- Scanning an opening tag `<n>`: the open-tag pattern consumes exactly
the tag when the following text does not begin with `>`. -/
lemma scanOpen_open {n rest : List Char} (hn : goodNameB n = true)
    (hr : ¬ rest.head? = some gtC) :
    scanCount openTagM (tokStr (Tok.op n) ++ rest) = 1 + scanCount openTagM rest := by
  obtain ⟨c0, c1, r0, hneq, hb, hq, hall⟩ := goodName_destruct hn
  subst hneq
  have hshape : tokStr (Tok.op (c0 :: c1 :: r0)) ++ rest =
      ltC :: c0 :: c1 :: (r0 ++ gtC :: rest) := by
    simp [tokStr]
  rw [hshape]
  have hsp : spanNot gtC (c1 :: (r0 ++ gtC :: rest)) = (c1 :: r0, gtC :: rest) := by
    have := spanNot_append gtC (c1 :: r0) rest
      (fun c hc => (hall c (List.mem_cons_of_mem c0 hc)).2.1)
    simpa using this
  obtain ⟨e, he, hemem⟩ := getLast?_mem_of_ne_nil (c1 :: r0) (by simp)
  have heslash : ¬ e = slashC := (hall e (List.mem_cons_of_mem c0 hemem)).2.2
  have hc0s : ¬ c0 = slashC := (hall c0 (by simp)).2.2
  have hmatch : openTagM (ltC :: c0 :: c1 :: (r0 ++ gtC :: rest)) =
      some (r0.length + 4) := by
    simp [openTagM, hsp, hc0s, hb, hq, hr, he, heslash]
  rw [scanCount_cons_some hmatch]
  congr 1
  have h3 : r0.length + 4 - 1 = r0.length + 1 + 1 + 1 := by omega
  rw [h3, List.drop_succ_cons, List.drop_succ_cons]
  rw [dropLenApp r0 (gtC :: rest) 1]
  rfl

/-- Scanning an opening tag with the close-tag pattern counts nothing. -/
lemma scanOpen_close {n rest : List Char} (hn : goodNameB n = true) :
    scanCount closeTagM (tokStr (Tok.op n) ++ rest) = scanCount closeTagM rest := by
  obtain ⟨c0, c1, r0, hneq, hb, hq, hall⟩ := goodName_destruct hn
  subst hneq
  have hshape : tokStr (Tok.op (c0 :: c1 :: r0)) ++ rest =
      ltC :: c0 :: c1 :: (r0 ++ gtC :: rest) := by
    simp [tokStr]
  rw [hshape]
  have hc0s : ¬ c0 = slashC := (hall c0 (by simp)).2.2
  have hmatch : closeTagM (ltC :: c0 :: c1 :: (r0 ++ gtC :: rest)) = none := by
    simp [closeTagM, hc0s]
  rw [scanCount_cons_none hmatch]
  have h2 : c0 :: c1 :: (r0 ++ gtC :: rest) = (c0 :: c1 :: (r0 ++ [gtC])) ++ rest := by
    simp
  rw [h2]
  refine scanCount_skip _ (fun c l h => closeTagM_not_lt l h) _ rest ?_
  intro c hc
  simp at hc
  rcases hc with h | h | h | h
  · rw [h]; exact (hall c0 (by simp)).1
  · rw [h]; exact (hall c1 (by simp)).1
  · exact (hall c (by simp [h])).1
  · rw [h]; decide

/-- Scanning an opening tag with the self-closing pattern counts nothing. -/
lemma scanOpen_self {n rest : List Char} (hn : goodNameB n = true) :
    scanCount selfCloseTagM (tokStr (Tok.op n) ++ rest) =
      scanCount selfCloseTagM rest := by
  obtain ⟨c0, c1, r0, hneq, hb, hq, hall⟩ := goodName_destruct hn
  subst hneq
  have hshape : tokStr (Tok.op (c0 :: c1 :: r0)) ++ rest =
      ltC :: c0 :: c1 :: (r0 ++ gtC :: rest) := by
    simp [tokStr]
  rw [hshape]
  have hsp : spanNot gtC (c0 :: c1 :: (r0 ++ gtC :: rest)) =
      (c0 :: c1 :: r0, gtC :: rest) := by
    have := spanNot_append gtC (c0 :: c1 :: r0) rest (fun c hc => (hall c hc).2.1)
    simpa using this
  obtain ⟨e, he, hemem⟩ := getLast?_mem_of_ne_nil (c0 :: c1 :: r0) (by simp)
  have heslash : ¬ e = slashC := (hall e hemem).2.2
  have hmatch : selfCloseTagM (ltC :: c0 :: c1 :: (r0 ++ gtC :: rest)) = none := by
    simp [selfCloseTagM, hsp, he, heslash]
  rw [scanCount_cons_none hmatch]
  have h2 : c0 :: c1 :: (r0 ++ gtC :: rest) = (c0 :: c1 :: (r0 ++ [gtC])) ++ rest := by
    simp
  rw [h2]
  refine scanCount_skip _ (fun c l h => selfCloseTagM_not_lt l h) _ rest ?_
  intro c hc
  simp at hc
  rcases hc with h | h | h | h
  · rw [h]; exact (hall c0 (by simp)).1
  · rw [h]; exact (hall c1 (by simp)).1
  · exact (hall c (by simp [h])).1
  · rw [h]; decide

/-- Scanning a closing tag `</n>` with the open-tag pattern counts
nothing. -/
lemma scanClose_open {n rest : List Char} (hn : goodNameB n = true) :
    scanCount openTagM (tokStr (Tok.cl n) ++ rest) = scanCount openTagM rest := by
  obtain ⟨c0, c1, r0, hneq, hb, hq, hall⟩ := goodName_destruct hn
  subst hneq
  have hshape : tokStr (Tok.cl (c0 :: c1 :: r0)) ++ rest =
      ltC :: slashC :: c0 :: c1 :: (r0 ++ gtC :: rest) := by
    simp [tokStr]
  rw [hshape]
  have hmatch : openTagM (ltC :: slashC :: c0 :: c1 :: (r0 ++ gtC :: rest)) = none := by
    simp [openTagM]
  rw [scanCount_cons_none hmatch]
  have h2 : slashC :: c0 :: c1 :: (r0 ++ gtC :: rest) =
      (slashC :: c0 :: c1 :: (r0 ++ [gtC])) ++ rest := by
    simp
  rw [h2]
  refine scanCount_skip _ (fun c l h => openTagM_not_lt l h) _ rest ?_
  intro c hc
  simp at hc
  rcases hc with h | h | h | h | h
  · rw [h]; decide
  · rw [h]; exact (hall c0 (by simp)).1
  · rw [h]; exact (hall c1 (by simp)).1
  · exact (hall c (by simp [h])).1
  · rw [h]; decide

/-- Scanning a closing tag `</n>`: the close-tag pattern consumes exactly
the tag. -/
lemma scanClose_close {n rest : List Char} (hn : goodNameB n = true) :
    scanCount closeTagM (tokStr (Tok.cl n) ++ rest) = 1 + scanCount closeTagM rest := by
  obtain ⟨c0, c1, r0, hneq, hb, hq, hall⟩ := goodName_destruct hn
  subst hneq
  have hshape : tokStr (Tok.cl (c0 :: c1 :: r0)) ++ rest =
      ltC :: slashC :: c0 :: c1 :: (r0 ++ gtC :: rest) := by
    simp [tokStr]
  rw [hshape]
  have hsp : spanNot gtC (c0 :: c1 :: (r0 ++ gtC :: rest)) =
      (c0 :: c1 :: r0, gtC :: rest) := by
    have := spanNot_append gtC (c0 :: c1 :: r0) rest (fun c hc => (hall c hc).2.1)
    simpa using this
  have hmatch : closeTagM (ltC :: slashC :: c0 :: c1 :: (r0 ++ gtC :: rest)) =
      some (r0.length + 5) := by
    simp [closeTagM, hsp]
  rw [scanCount_cons_some hmatch]
  congr 1
  have h3 : r0.length + 5 - 1 = r0.length + 1 + 1 + 1 + 1 := by omega
  rw [h3, List.drop_succ_cons, List.drop_succ_cons, List.drop_succ_cons]
  rw [dropLenApp r0 (gtC :: rest) 1]
  rfl

/-- Scanning a closing tag with the self-closing pattern counts nothing. -/
lemma scanClose_self {n rest : List Char} (hn : goodNameB n = true) :
    scanCount selfCloseTagM (tokStr (Tok.cl n) ++ rest) =
      scanCount selfCloseTagM rest := by
  obtain ⟨c0, c1, r0, hneq, hb, hq, hall⟩ := goodName_destruct hn
  subst hneq
  have hshape : tokStr (Tok.cl (c0 :: c1 :: r0)) ++ rest =
      ltC :: slashC :: c0 :: c1 :: (r0 ++ gtC :: rest) := by
    simp [tokStr]
  rw [hshape]
  have hsp : spanNot gtC (slashC :: c0 :: c1 :: (r0 ++ gtC :: rest)) =
      (slashC :: c0 :: c1 :: r0, gtC :: rest) := by
    have := spanNot_append gtC (slashC :: c0 :: c1 :: r0) rest
      (by
        intro c hc
        rcases List.mem_cons.mp hc with h | h
        · rw [h]; decide
        · exact (hall c h).2.1)
    simpa using this
  obtain ⟨e, he, hemem⟩ := getLast?_mem_of_ne_nil (c0 :: c1 :: r0) (by simp)
  have heslash : ¬ e = slashC := (hall e hemem).2.2
  have hlast : (slashC :: c0 :: c1 :: r0).getLast? = some e := by
    rw [List.getLast?_cons_cons]
    exact he
  have hmatch : selfCloseTagM (ltC :: slashC :: c0 :: c1 :: (r0 ++ gtC :: rest)) =
      none := by
    simp [selfCloseTagM, hsp, hlast, heslash]
  rw [scanCount_cons_none hmatch]
  have h2 : slashC :: c0 :: c1 :: (r0 ++ gtC :: rest) =
      (slashC :: c0 :: c1 :: (r0 ++ [gtC])) ++ rest := by
    simp
  rw [h2]
  refine scanCount_skip _ (fun c l h => selfCloseTagM_not_lt l h) _ rest ?_
  intro c hc
  simp at hc
  rcases hc with h | h | h | h | h
  · rw [h]; decide
  · rw [h]; exact (hall c0 (by simp)).1
  · rw [h]; exact (hall c1 (by simp)).1
  · exact (hall c (by simp [h])).1
  · rw [h]; decide

/-- Scanning a self-closing tag `<n/>` with the open-tag pattern counts
nothing (the run ends in a slash). -/
lemma scanSelf_open {n rest : List Char} (hn : goodNameB n = true)
    (hr : ¬ rest.head? = some gtC) :
    scanCount openTagM (tokStr (Tok.sc n) ++ rest) = scanCount openTagM rest := by
  obtain ⟨c0, c1, r0, hneq, hb, hq, hall⟩ := goodName_destruct hn
  subst hneq
  have hshape : tokStr (Tok.sc (c0 :: c1 :: r0)) ++ rest =
      ltC :: c0 :: c1 :: (r0 ++ slashC :: gtC :: rest) := by
    simp [tokStr]
  rw [hshape]
  have hsp : spanNot gtC (c1 :: (r0 ++ slashC :: gtC :: rest)) =
      (c1 :: (r0 ++ [slashC]), gtC :: rest) := by
    have := spanNot_append gtC ((c1 :: r0) ++ [slashC]) rest
      (by
        intro c hc
        rcases List.mem_append.mp hc with h | h
        · exact (hall c (List.mem_cons_of_mem c0 h)).2.1
        · rw [List.mem_singleton.mp h]; decide)
    simpa using this
  have hlast : (c1 :: (r0 ++ [slashC])).getLast? = some slashC := by
    have := @List.getLast?_concat Char slashC (c1 :: r0)
    simpa using this
  have hc0s : ¬ c0 = slashC := (hall c0 (by simp)).2.2
  have hmatch : openTagM (ltC :: c0 :: c1 :: (r0 ++ slashC :: gtC :: rest)) = none := by
    simp [openTagM, hsp, hc0s, hb, hq, hr, hlast]
  rw [scanCount_cons_none hmatch]
  have h2 : c0 :: c1 :: (r0 ++ slashC :: gtC :: rest) =
      (c0 :: c1 :: (r0 ++ [slashC, gtC])) ++ rest := by
    simp
  rw [h2]
  refine scanCount_skip _ (fun c l h => openTagM_not_lt l h) _ rest ?_
  intro c hc
  simp at hc
  rcases hc with h | h | h | h | h
  · rw [h]; exact (hall c0 (by simp)).1
  · rw [h]; exact (hall c1 (by simp)).1
  · exact (hall c (by simp [h])).1
  · rw [h]; decide
  · rw [h]; decide

/-- Scanning a self-closing tag with the close-tag pattern counts
nothing. -/
lemma scanSelf_close {n rest : List Char} (hn : goodNameB n = true) :
    scanCount closeTagM (tokStr (Tok.sc n) ++ rest) = scanCount closeTagM rest := by
  obtain ⟨c0, c1, r0, hneq, hb, hq, hall⟩ := goodName_destruct hn
  subst hneq
  have hshape : tokStr (Tok.sc (c0 :: c1 :: r0)) ++ rest =
      ltC :: c0 :: c1 :: (r0 ++ slashC :: gtC :: rest) := by
    simp [tokStr]
  rw [hshape]
  have hc0s : ¬ c0 = slashC := (hall c0 (by simp)).2.2
  have hmatch : closeTagM (ltC :: c0 :: c1 :: (r0 ++ slashC :: gtC :: rest)) = none := by
    simp [closeTagM, hc0s]
  rw [scanCount_cons_none hmatch]
  have h2 : c0 :: c1 :: (r0 ++ slashC :: gtC :: rest) =
      (c0 :: c1 :: (r0 ++ [slashC, gtC])) ++ rest := by
    simp
  rw [h2]
  refine scanCount_skip _ (fun c l h => closeTagM_not_lt l h) _ rest ?_
  intro c hc
  simp at hc
  rcases hc with h | h | h | h | h
  · rw [h]; exact (hall c0 (by simp)).1
  · rw [h]; exact (hall c1 (by simp)).1
  · exact (hall c (by simp [h])).1
  · rw [h]; decide
  · rw [h]; decide

/-- Scanning a self-closing tag `<n/>`: the self-closing pattern consumes
exactly the tag. -/
lemma scanSelf_self {n rest : List Char} (hn : goodNameB n = true) :
    scanCount selfCloseTagM (tokStr (Tok.sc n) ++ rest) =
      1 + scanCount selfCloseTagM rest := by
  obtain ⟨c0, c1, r0, hneq, hb, hq, hall⟩ := goodName_destruct hn
  subst hneq
  have hshape : tokStr (Tok.sc (c0 :: c1 :: r0)) ++ rest =
      ltC :: c0 :: c1 :: (r0 ++ slashC :: gtC :: rest) := by
    simp [tokStr]
  rw [hshape]
  have hsp : spanNot gtC (c0 :: c1 :: (r0 ++ slashC :: gtC :: rest)) =
      (c0 :: c1 :: (r0 ++ [slashC]), gtC :: rest) := by
    have := spanNot_append gtC ((c0 :: c1 :: r0) ++ [slashC]) rest
      (by
        intro c hc
        rcases List.mem_append.mp hc with h | h
        · exact (hall c h).2.1
        · rw [List.mem_singleton.mp h]; decide)
    simpa using this
  have hlast : (c0 :: c1 :: (r0 ++ [slashC])).getLast? = some slashC := by
    have := @List.getLast?_concat Char slashC (c0 :: c1 :: r0)
    simpa using this
  have hmatch : selfCloseTagM (ltC :: c0 :: c1 :: (r0 ++ slashC :: gtC :: rest)) =
      some (r0.length + 5) := by
    simp [selfCloseTagM, hsp, hlast]
  rw [scanCount_cons_some hmatch]
  congr 1
  have h3 : r0.length + 5 - 1 = r0.length + 1 + 1 + 1 + 1 := by omega
  rw [h3, List.drop_succ_cons, List.drop_succ_cons]
  have h6 : r0.length + 1 + 1 = r0.length + 2 := by omega
  rw [h6, dropLenApp r0 (slashC :: gtC :: rest) 2]
  simp

/-! ## Lemmas: tag sequences and trees -/

lemma flatToks_head_ne_gt (ts : List Tok) : ¬ (flatToks ts).head? = some gtC := by
  cases ts with
  | nil => simp [flatToks]
  | cons t ts => cases t <;> simp [flatToks, tokStr] <;> decide

lemma numOp_append (a b : List Tok) : numOp (a ++ b) = numOp a + numOp b := by
  induction a with
  | nil => simp [numOp]
  | cons t ts ih => cases t <;> simp [numOp, ih] <;> omega

lemma numCl_append (a b : List Tok) : numCl (a ++ b) = numCl a + numCl b := by
  induction a with
  | nil => simp [numCl]
  | cons t ts ih => cases t <;> simp [numCl, ih] <;> omega

lemma numSc_append (a b : List Tok) : numSc (a ++ b) = numSc a + numSc b := by
  induction a with
  | nil => simp [numSc]
  | cons t ts ih => cases t <;> simp [numSc, ih] <;> omega

/-- The three `countTags` scans over a serialised sequence of good tags
count exactly the opening, closing and self-closing tags of the
sequence. -/
lemma scan_flatToks : ∀ (ts : List Tok), (∀ t ∈ ts, goodTok t = true) →
    scanCount openTagM (flatToks ts) = numOp ts ∧
    scanCount closeTagM (flatToks ts) = numCl ts ∧
    scanCount selfCloseTagM (flatToks ts) = numSc ts := by
  intro ts
  induction ts with
  | nil => intro _; exact ⟨rfl, rfl, rfl⟩
  | cons t ts ih =>
    intro h
    have ht : goodTok t = true := h t (List.mem_cons_self t ts)
    obtain ⟨h1, h2, h3⟩ := ih fun u hu => h u (List.mem_cons_of_mem t hu)
    have hr := flatToks_head_ne_gt ts
    cases t with
    | op n =>
      have hgn : goodNameB n = true := ht
      refine ⟨?_, ?_, ?_⟩
      · show scanCount openTagM (tokStr (Tok.op n) ++ flatToks ts) = numOp (Tok.op n :: ts)
        rw [scanOpen_open hgn hr, h1]
        simp [numOp]
        omega
      · show scanCount closeTagM (tokStr (Tok.op n) ++ flatToks ts) = numCl (Tok.op n :: ts)
        rw [scanOpen_close hgn, h2]
        simp [numCl]
      · show scanCount selfCloseTagM (tokStr (Tok.op n) ++ flatToks ts) =
          numSc (Tok.op n :: ts)
        rw [scanOpen_self hgn, h3]
        simp [numSc]
    | cl n =>
      have hgn : goodNameB n = true := ht
      refine ⟨?_, ?_, ?_⟩
      · show scanCount openTagM (tokStr (Tok.cl n) ++ flatToks ts) = numOp (Tok.cl n :: ts)
        rw [scanClose_open hgn, h1]
        simp [numOp]
      · show scanCount closeTagM (tokStr (Tok.cl n) ++ flatToks ts) = numCl (Tok.cl n :: ts)
        rw [scanClose_close hgn, h2]
        simp [numCl]
        omega
      · show scanCount selfCloseTagM (tokStr (Tok.cl n) ++ flatToks ts) =
          numSc (Tok.cl n :: ts)
        rw [scanClose_self hgn, h3]
        simp [numSc]
    | sc n =>
      have hgn : goodNameB n = true := ht
      refine ⟨?_, ?_, ?_⟩
      · show scanCount openTagM (tokStr (Tok.sc n) ++ flatToks ts) = numOp (Tok.sc n :: ts)
        rw [scanSelf_open hgn hr, h1]
        simp [numOp]
      · show scanCount closeTagM (tokStr (Tok.sc n) ++ flatToks ts) = numCl (Tok.sc n :: ts)
        rw [scanSelf_close hgn, h2]
        simp [numCl]
      · show scanCount selfCloseTagM (tokStr (Tok.sc n) ++ flatToks ts) =
          numSc (Tok.sc n :: ts)
        rw [scanSelf_self hgn, h3]
        simp [numSc]
        omega

lemma treeToks_ne_nil (t : BTree) : treeToks t ≠ [] := by
  cases t <;> simp [treeToks]

mutual
/-- Every element tree closes exactly the tags it opens. -/
theorem treeToks_balance (t : BTree) : numOp (treeToks t) = numCl (treeToks t) := by
  cases t with
  | elem n f =>
    have hf := forestToks_balance f
    simp [treeToks, numOp, numCl, numOp_append, numCl_append, hf]
  | leaf n => simp [treeToks, numOp, numCl]

theorem forestToks_balance (f : BForest) : numOp (forestToks f) = numCl (forestToks f) := by
  cases f with
  | fnil => rfl
  | fcons t f2 =>
    have ha := treeToks_balance t
    have hb := forestToks_balance f2
    simp [forestToks, numOp_append, numCl_append, ha, hb]
end

mutual
theorem treeToks_good (t : BTree) (h : goodTreeB t = true) :
    ∀ tk ∈ treeToks t, goodTok tk = true := by
  cases t with
  | elem n f =>
    intro tk htk
    have hng : goodNameB n = true := by
      have h2 := h
      simp only [goodTreeB, Bool.and_eq_true] at h2
      exact h2.1
    have hfg : goodForestB f = true := by
      have h2 := h
      simp only [goodTreeB, Bool.and_eq_true] at h2
      exact h2.2
    simp [treeToks] at htk
    rcases htk with h1 | h1 | h1
    · rw [h1]; exact hng
    · exact forestToks_good f hfg tk h1
    · rw [h1]; exact hng
  | leaf n =>
    intro tk htk
    simp [treeToks] at htk
    rw [htk]
    exact h

theorem forestToks_good (f : BForest) (h : goodForestB f = true) :
    ∀ tk ∈ forestToks f, goodTok tk = true := by
  cases f with
  | fnil => intro tk htk; simp [forestToks] at htk
  | fcons t f2 =>
    intro tk htk
    simp only [forestToks, List.mem_append] at htk
    have hh := h
    simp only [goodForestB, Bool.and_eq_true] at hh
    rcases htk with hk | hk
    · exact treeToks_good t hh.1 tk hk
    · exact forestToks_good f2 hh.2 tk hk
end

lemma serializeTree_shape (t : BTree) :
    serializeTree t = ltC :: (serializeTree t).tail := by
  unfold serializeTree
  cases ht : treeToks t with
  | nil => exact absurd ht (treeToks_ne_nil t)
  | cons tk ts => cases tk <;> simp [flatToks, tokStr]

/-- `countTags` on a non-empty string, by computation. -/
lemma countTags_vstr_cons (c : Char) (cs : List Char) :
    countTags (JSVal.vstr (c :: cs)) =
      { openTags := scanCount openTagM (c :: cs)
        closeTags := scanCount closeTagM (c :: cs)
        selfClosing := scanCount selfCloseTagM (c :: cs)
        xmlDeclarations := some (scanCount xmlDeclM (c :: cs))
        valid := scanCount openTagM (c :: cs) == scanCount closeTagM (c :: cs)
        balance := some ((scanCount openTagM (c :: cs) : Int) -
          (scanCount closeTagM (c :: cs) : Int)) } := rfl

/-! ## Lemmas: pipeline pieces -/

lemma processMatch_none_of_not_contains {s : List Char}
    (h : containsSub procOpenS s = false) : processMatch s = none := by
  unfold processMatch
  unfold containsSub at h
  cases hf : findSub procOpenS s with
  | none => rfl
  | some pr => rw [hf] at h; simp at h

/-- The three interpolated counts are substrings of the unbalanced-tags
message. -/
lemma unbalanced_contains (ro : Int) (c sc : Nat) :
    containsSub ((toString ro).toList) (unbalancedMsg ro c sc) = true ∧
    containsSub ((toString c).toList) (unbalancedMsg ro c sc) = true ∧
    containsSub ((toString sc).toList) (unbalancedMsg ro c sc) = true := by
  refine ⟨?_, ?_, ?_⟩
  · have h : unbalancedMsg ro c sc = ("Unbalanced tags: ").toList ++
        ((toString ro).toList ++
          ((" regular open, ").toList ++ (toString c).toList ++ (" close, ").toList ++
            (toString sc).toList ++
            (" self-closing. Check for unclosed tags near the end of the XML.").toList)) := by
      simp [unbalancedMsg, List.append_assoc]
    rw [h]
    exact containsSub_mid _ _ _
  · have h : unbalancedMsg ro c sc =
        (("Unbalanced tags: ").toList ++ (toString ro).toList ++ (" regular open, ").toList) ++
        ((toString c).toList ++
          ((" close, ").toList ++ (toString sc).toList ++
            (" self-closing. Check for unclosed tags near the end of the XML.").toList)) := by
      simp [unbalancedMsg, List.append_assoc]
    rw [h]
    exact containsSub_mid _ _ _
  · have h : unbalancedMsg ro c sc =
        (("Unbalanced tags: ").toList ++ (toString ro).toList ++ (" regular open, ").toList ++
          (toString c).toList ++ (" close, ").toList) ++
        ((toString sc).toList ++
          (" self-closing. Check for unclosed tags near the end of the XML.").toList) := by
      simp [unbalancedMsg, List.append_assoc]
    rw [h]
    exact containsSub_mid _ _ _

/-- `validateXMLStructure` on a non-empty string is the if-chain of its
five checks. -/
lemma validateXMLStructure_some {v : JSVal} {s : List Char}
    (hv : asNonemptyStr v = some s) :
    validateXMLStructure v =
      if ¬(containsSub defsOpenS s ∧ containsSub defsCloseS s) then
        ⟨false, some missingDefsMsg⟩
      else if ¬(containsSub procOpenS s ∧ containsSub procCloseS s) then
        ⟨false, some missingProcMsg⟩
      else if ¬(svRegularOpen s = (svClose s : Int)) then
        ⟨false, some (unbalancedMsg (svRegularOpen s) (svClose s) (svSelfClosing s))⟩
      else if containsSub ltltS s ∨ containsSub gtgtS s then
        ⟨false, some doubledMsg⟩
      else ⟨true, none⟩ := by
  unfold validateXMLStructure
  rw [hv]

/-- The validation-and-response phase either answers with the original
document or with a candidate the repair pipeline accepted. -/
lemma chatProcess_updated (parse : JSVal → ParserOutcome) (dXML : JSVal) (L : LLMFields) :
    ∀ resp, chatProcess parse dXML L = some resp →
      resp.updatedDiagramXML = dXML ∨
      ∃ s t, (applyBatching L).updatedDiagramXML = JSVal.vstr s ∧
        (pipelineDriver parse s).1 = some t ∧
        resp.updatedDiagramXML = JSVal.vstr t := by
  intro resp h
  cases hx : (applyBatching L).updatedDiagramXML with
  | vnull =>
    simp [chatProcess, hx, truthy] at h
    left; rw [← h]
  | vundef =>
    simp [chatProcess, hx, truthy] at h
    left; rw [← h]
  | vbool b =>
    cases b with
    | false =>
      simp [chatProcess, hx, truthy] at h
      left; rw [← h]
    | true => simp [chatProcess, hx, truthy] at h
  | vnum n =>
    by_cases hn : n = 0
    · subst hn
      simp [chatProcess, hx, truthy] at h
      left; rw [← h]
    · simp [chatProcess, hx, truthy, hn] at h
  | vstr s =>
    cases s with
    | nil =>
      simp [chatProcess, hx, truthy] at h
      left; rw [← h]
    | cons c cs =>
      cases hd : (pipelineDriver parse (c :: cs)).1 with
      | none =>
        simp [chatProcess, hx, truthy, hd] at h
        left; rw [← h]
      | some t =>
        simp [chatProcess, hx, truthy, hd] at h
        right
        exact ⟨c :: cs, t, rfl, hd, by rw [← h]⟩

/-- The batched loop over a full sequence of parts concatenates them in
ascending order. -/
lemma reconstructBatches_eq_flatten :
    ∀ (parts : List (List Char)) (f : Nat → Option (List Char)),
      (∀ i (h : i < parts.length), f (i + 1) = some (parts.get ⟨i, h⟩)) →
      reconstructBatches f parts.length = parts.flatten := by
  intro parts
  induction parts using List.reverseRecOn with
  | nil => intro f _; rfl
  | append_singleton init last ih =>
    intro f hf
    have hlen : (init ++ [last]).length = init.length + 1 := by simp
    have hstep : f (init.length + 1) = some last := by
      have hlt : init.length < (init ++ [last]).length := by simp
      have h0 := hf init.length hlt
      rw [h0]
      congr 1
      simp [List.get_eq_getElem]
    have hrestrict : ∀ i (h : i < init.length), f (i + 1) = some (init.get ⟨i, h⟩) := by
      intro i hi
      have hi2 : i < (init ++ [last]).length := by simp; omega
      have h0 := hf i hi2
      rw [h0]
      congr 1
      simp only [List.get_eq_getElem]
      exact List.getElem_append_left hi
    calc reconstructBatches f (init ++ [last]).length
        = reconstructBatches f (init.length + 1) := by rw [hlen]
      _ = reconstructBatches f init.length ++ ((f (init.length + 1)).getD []) := rfl
      _ = init.flatten ++ last := by rw [ih f hrestrict, hstep]; rfl
      _ = (init ++ [last]).flatten := by simp

/-! ## The claims -/

/-- C1: the Comprehensive Validation Orchestrator returns `valid = true`
iff the Structural Validator, Parser-Based Validator, Tag Balance Analyzer
and Domain Rule Validator all report valid; its error string is the
pipe-joined concatenation of each failing component's message, each
prefixed by that component's name, in the fixed order Basic, Parser,
Tags, BPMN; and on success the error string is empty. -/
theorem c1_orchestrator_iff_and_error_format :
    ∀ (parse : JSVal → ParserOutcome) (v : JSVal),
      ((comprehensiveXMLValidation parse v).valid = true ↔
        ((validateXMLStructure v).valid = true ∧
         (validateXMLWithParser (parse v)).valid = true ∧
         (countTags v).valid = true ∧
         (validateBPMNSpecificStructure v).valid = true)) ∧
      ((comprehensiveXMLValidation parse v).error = joinSep pipeSep
        ((if (validateXMLStructure v).valid then []
          else [("Basic: ").toList ++ jsShowOpt (validateXMLStructure v).error]) ++
         (if (validateXMLWithParser (parse v)).valid then []
          else [("Parser: ").toList ++
            joinSep commaSep (validateXMLWithParser (parse v)).errors]) ++
         (if (countTags v).valid then []
          else [("Tags: ").toList ++ tagsErrMsg (countTags v)]) ++
         (if (validateBPMNSpecificStructure v).valid then []
          else [("BPMN: ").toList ++ jsShowOpt (validateBPMNSpecificStructure v).error]))) ∧
      ((comprehensiveXMLValidation parse v).valid = true →
        (comprehensiveXMLValidation parse v).error = []) := by
  intro parse v
  have hvalid : (comprehensiveXMLValidation parse v).valid =
      ((validateXMLStructure v).valid && (validateXMLWithParser (parse v)).valid &&
        (countTags v).valid && (validateBPMNSpecificStructure v).valid) := rfl
  refine ⟨?_, rfl, ?_⟩
  · rw [hvalid]
    simp [Bool.and_eq_true, and_assoc]
  · intro h
    rw [hvalid] at h
    simp only [Bool.and_eq_true] at h
    obtain ⟨⟨⟨h1, h2⟩, h3⟩, h4⟩ := h
    show joinSep pipeSep _ = []
    rw [if_pos h1, if_pos h2, if_pos h3, if_pos h4]
    rfl

/-- C7: the Structural Validator performs its checks in the fixed order —
non-empty string, definitions markers present, process markers present,
regular-open-tag count equals close-tag count, no doubled angle
brackets — short-circuiting on the first failure; on a tag-count mismatch
the error message contains all three counts; and it returns
`{valid := true, error := null}` exactly when every check passes. -/
theorem c7_structural_validator_order :
    ∀ v : JSVal,
      ((validateXMLStructure v).valid = true ↔
        ∃ s, asNonemptyStr v = some s ∧
          (containsSub defsOpenS s ∧ containsSub defsCloseS s) ∧
          (containsSub procOpenS s ∧ containsSub procCloseS s) ∧
          svRegularOpen s = (svClose s : Int) ∧
          ¬(containsSub ltltS s ∨ containsSub gtgtS s)) ∧
      (asNonemptyStr v = none →
        validateXMLStructure v = ⟨false, some emptyErrMsg⟩) ∧
      ∀ s, asNonemptyStr v = some s →
        ((validateXMLStructure v).valid = true →
          validateXMLStructure v = ⟨true, none⟩) ∧
        (¬(containsSub defsOpenS s ∧ containsSub defsCloseS s) →
          validateXMLStructure v = ⟨false, some missingDefsMsg⟩) ∧
        ((containsSub defsOpenS s ∧ containsSub defsCloseS s) →
          ¬(containsSub procOpenS s ∧ containsSub procCloseS s) →
          validateXMLStructure v = ⟨false, some missingProcMsg⟩) ∧
        ((containsSub defsOpenS s ∧ containsSub defsCloseS s) →
          (containsSub procOpenS s ∧ containsSub procCloseS s) →
          ¬ svRegularOpen s = (svClose s : Int) →
          validateXMLStructure v = ⟨false, some (unbalancedMsg (svRegularOpen s)
            (svClose s) (svSelfClosing s))⟩ ∧
          containsSub ((toString (svRegularOpen s)).toList)
            (unbalancedMsg (svRegularOpen s) (svClose s) (svSelfClosing s)) = true ∧
          containsSub ((toString (svClose s)).toList)
            (unbalancedMsg (svRegularOpen s) (svClose s) (svSelfClosing s)) = true ∧
          containsSub ((toString (svSelfClosing s)).toList)
            (unbalancedMsg (svRegularOpen s) (svClose s) (svSelfClosing s)) = true) ∧
        ((containsSub defsOpenS s ∧ containsSub defsCloseS s) →
          (containsSub procOpenS s ∧ containsSub procCloseS s) →
          svRegularOpen s = (svClose s : Int) →
          (containsSub ltltS s ∨ containsSub gtgtS s) →
          validateXMLStructure v = ⟨false, some doubledMsg⟩) := by
  intro v
  cases hv : asNonemptyStr v with
  | none =>
    have hdef : validateXMLStructure v = ⟨false, some emptyErrMsg⟩ := by
      unfold validateXMLStructure
      rw [hv]
    refine ⟨?_, fun _ => hdef, ?_⟩
    · rw [hdef]
      simp [hv]
    · intro s hs
      exact absurd hs (by simp)
  | some s =>
    have hveq := validateXMLStructure_some hv
    constructor
    · -- the iff
      rw [hveq]
      by_cases h1 : (containsSub defsOpenS s ∧ containsSub defsCloseS s)
      · by_cases h2 : (containsSub procOpenS s ∧ containsSub procCloseS s)
        · by_cases h3 : svRegularOpen s = (svClose s : Int)
          · by_cases h4 : (containsSub ltltS s ∨ containsSub gtgtS s)
            · simp only [if_neg (not_not_intro h1), if_neg (not_not_intro h2),
                if_neg (not_not_intro h3), if_pos h4]
              constructor
              · intro hab; exact absurd hab (by simp)
              · rintro ⟨s2, hs2, -, -, -, hno⟩
                cases hs2
                exact absurd h4 hno
            · simp only [if_neg (not_not_intro h1), if_neg (not_not_intro h2),
                if_neg (not_not_intro h3), if_neg h4]
              constructor
              · intro _; exact ⟨s, rfl, h1, h2, h3, h4⟩
              · intro _; trivial
          · simp only [if_neg (not_not_intro h1), if_neg (not_not_intro h2), if_pos h3]
            constructor
            · intro hab; exact absurd hab (by simp)
            · rintro ⟨s2, hs2, -, -, h3b, -⟩
              cases hs2
              exact absurd h3b h3
        · simp only [if_neg (not_not_intro h1), if_pos h2]
          constructor
          · intro hab; exact absurd hab (by simp)
          · rintro ⟨s2, hs2, -, h2b, -, -⟩
            cases hs2
            exact absurd h2b h2
      · rw [if_pos h1]
        constructor
        · intro hab; exact absurd hab (by simp)
        · rintro ⟨s2, hs2, h1b, -, -, -⟩
          cases hs2
          exact absurd h1b h1
    constructor
    · intro hnone
      exact absurd hnone (by simp)
    intro s2 hs2
    cases hs2
    refine ⟨?_, ?_, ?_, ?_, ?_⟩
    · intro hval
      rw [hveq] at hval ⊢
      by_cases h1 : (containsSub defsOpenS s ∧ containsSub defsCloseS s)
      · by_cases h2 : (containsSub procOpenS s ∧ containsSub procCloseS s)
        · by_cases h3 : svRegularOpen s = (svClose s : Int)
          · by_cases h4 : (containsSub ltltS s ∨ containsSub gtgtS s)
            · rw [if_neg (not_not_intro h1), if_neg (not_not_intro h2),
                if_neg (not_not_intro h3), if_pos h4] at hval
              exact absurd hval (by simp)
            · rw [if_neg (not_not_intro h1), if_neg (not_not_intro h2),
                if_neg (not_not_intro h3), if_neg h4]
          · rw [if_neg (not_not_intro h1), if_neg (not_not_intro h2), if_pos h3] at hval
            exact absurd hval (by simp)
        · rw [if_neg (not_not_intro h1), if_pos h2] at hval
          exact absurd hval (by simp)
      · rw [if_pos h1] at hval
        exact absurd hval (by simp)
    · intro h1
      rw [hveq, if_pos h1]
    · intro h1 h2
      rw [hveq, if_neg (not_not_intro h1), if_pos h2]
    · intro h1 h2 h3
      obtain ⟨k1, k2, k3⟩ :=
        unbalanced_contains (svRegularOpen s) (svClose s) (svSelfClosing s)
      exact ⟨by rw [hveq, if_neg (not_not_intro h1), if_neg (not_not_intro h2), if_pos h3],
        k1, k2, k3⟩
    · intro h1 h2 h3 h4
      rw [hveq, if_neg (not_not_intro h1), if_neg (not_not_intro h2),
        if_neg (not_not_intro h3), if_pos h4]

/-- C9: whenever the Rebuilder succeeds — revalidation accepts the
envelope-wrapped process section — the rebuilt document passes the
Structural Validator (the orchestrator's verdict is the conjunction of
its components); and when no process section is found in the (sanitized)
candidate, the rebuild is not attempted and the driver keeps the prior
document, annotating with the final diagnostic. -/
theorem c9_rebuilder_roundtrip :
    (∀ (parse : JSVal → ParserOutcome) (sec : List Char),
      (comprehensiveXMLValidation parse (JSVal.vstr (rebuildXML sec))).valid = true →
      (validateXMLStructure (JSVal.vstr (rebuildXML sec))).valid = true) ∧
    (∀ (parse : JSVal → ParserOutcome) (s : List Char),
      (comprehensiveXMLValidation parse (JSVal.vstr s)).valid = false →
      (comprehensiveXMLValidation parse (JSVal.vstr (sanitizeStr s))).valid = false →
      processMatch (sanitizeStr s) = none →
      pipelineDriver parse s = (none, RepairNote.failed
        (comprehensiveXMLValidation parse (JSVal.vstr (sanitizeStr s))).error)) := by
  constructor
  · intro parse sec h
    have h2 : ((validateXMLStructure (JSVal.vstr (rebuildXML sec))).valid &&
        (validateXMLWithParser (parse (JSVal.vstr (rebuildXML sec)))).valid &&
        (countTags (JSVal.vstr (rebuildXML sec))).valid &&
        (validateBPMNSpecificStructure (JSVal.vstr (rebuildXML sec))).valid) = true := h
    simp only [Bool.and_eq_true] at h2
    exact h2.1.1.1
  · intro parse s h1 h2 h3
    simp [pipelineDriver, h1, h2, h3]

/-- C10: for every input value — null, undefined, booleans, numbers,
strings — the validators return verdict objects with a boolean `valid`
field (the orchestrator's verdict is two-valued); a parser exception is
caught and converted into a `valid:false` verdict carrying the message;
and every non-string or empty input short-circuits each component to
`valid:false`. -/
theorem c10_validators_total :
    ∀ (parse : JSVal → ParserOutcome) (v : JSVal) (m : List Char),
      ((validateXMLWithParser (ParserOutcome.exn m)).valid = false ∧
        (validateXMLWithParser (ParserOutcome.exn m)).errors = [m]) ∧
      ((comprehensiveXMLValidation parse v).valid = true ∨
        (comprehensiveXMLValidation parse v).valid = false) ∧
      (asNonemptyStr v = none →
        (validateXMLStructure v).valid = false ∧
        (countTags v).valid = false ∧
        (validateBPMNSpecificStructure v).valid = false ∧
        (comprehensiveXMLValidation parse v).valid = false) := by
  intro parse v m
  refine ⟨⟨rfl, rfl⟩, ?_, ?_⟩
  · cases hb : (comprehensiveXMLValidation parse v).valid
    · exact Or.inr rfl
    · exact Or.inl rfl
  · intro hv
    have h1 : validateXMLStructure v = ⟨false, some emptyErrMsg⟩ := by
      unfold validateXMLStructure
      rw [hv]
    have h2 : (countTags v).valid = false := by
      unfold countTags
      rw [hv]
    have h3 : validateBPMNSpecificStructure v = ⟨false, some emptyErrMsg⟩ := by
      unfold validateBPMNSpecificStructure
      rw [hv]
    refine ⟨by rw [h1], h2, by rw [h3], ?_⟩
    show ((validateXMLStructure v).valid && (validateXMLWithParser (parse v)).valid &&
      (countTags v).valid && (validateBPMNSpecificStructure v).valid) = false
    rw [h2]
    simp

/-- C4 (counterexample): the document text of the perfectly matched
one-element tree, `<a></a>`, is reported unbalanced by `countTags`
(`openTags = 0`, `closeTags = 1`): the open-tag pattern
`<[^\/!?][^>]*[^\/]>` cannot match a tag with fewer than two characters
between the brackets. -/
theorem c4_counterexample :
    serializeTree treeA = ("<a></a>").toList ∧
    (countTags (JSVal.vstr (serializeTree treeA))).valid = false ∧
    (countTags (JSVal.vstr (serializeTree treeA))).openTags = 0 ∧
    (countTags (JSVal.vstr (serializeTree treeA))).closeTags = 1 := by
  refine ⟨by decide, by decide, by decide, by decide⟩

/-- C4 (amended): for document text in which every opening tag has
exactly one matching closing tag — the serialisation of an element
tree — and whose tag interiors have at least two characters, none of
`<`, `>`, `/`, and do not start like a comment or declaration, the Tag
Balance Analyzer reports balanced: `valid = true` with
`openTags = closeTags` (self-closing tags counted separately). -/
theorem c4_tag_balance_amended :
    ∀ t : BTree, goodTreeB t = true →
      (countTags (JSVal.vstr (serializeTree t))).valid = true ∧
      (countTags (JSVal.vstr (serializeTree t))).openTags =
        (countTags (JSVal.vstr (serializeTree t))).closeTags := by
  intro t ht
  have hsh := serializeTree_shape t
  obtain ⟨ho, hc, hs⟩ := scan_flatToks (treeToks t) (treeToks_good t ht)
  have hbal := treeToks_balance t
  constructor
  · rw [hsh, countTags_vstr_cons]
    show (scanCount openTagM (ltC :: (serializeTree t).tail) ==
      scanCount closeTagM (ltC :: (serializeTree t).tail)) = true
    rw [← hsh]
    show (scanCount openTagM (flatToks (treeToks t)) ==
      scanCount closeTagM (flatToks (treeToks t))) = true
    rw [ho, hc, hbal]
    simp
  · rw [hsh, countTags_vstr_cons]
    show scanCount openTagM (ltC :: (serializeTree t).tail) =
      scanCount closeTagM (ltC :: (serializeTree t).tail)
    rw [← hsh]
    show scanCount openTagM (flatToks (treeToks t)) =
      scanCount closeTagM (flatToks (treeToks t))
    rw [ho, hc, hbal]

/-- C4 (amended, witness): a concrete well-matched tree with good names
is counted as balanced. -/
theorem c4_tag_balance_amended_witness :
    (countTags (JSVal.vstr (serializeTree treeW))).valid = true ∧
    (countTags (JSVal.vstr (serializeTree treeW))).openTags =
      (countTags (JSVal.vstr (serializeTree treeW))).closeTags :=
  c4_tag_balance_amended treeW (by decide)

/-- C5 (counterexample): a concrete document that passes the
comprehensive validation, yet whose sanitized image fails it — the
quote-repair rewrites destroy the required namespace declarations. -/
theorem c5_counterexample :
    (comprehensiveXMLValidation permissiveParse (JSVal.vstr docC5)).valid = true ∧
    (comprehensiveXMLValidation permissiveParse (sanitizeXML (JSVal.vstr docC5))).valid
      = false := by
  refine ⟨by decide, by decide⟩

/-- C5 (amended): the Sanitizer leaves text unchanged — and therefore
preserves every validation verdict — exactly on input where none of its
three quote-repair patterns matches; on matching input it can corrupt
even comprehensively valid documents (see the counterexample). -/
theorem c5_sanitizer_amended :
    ∀ (parse : JSVal → ParserOutcome) (s : List Char), noSanitizeMatch s = true →
      sanitizeStr s = s ∧
      comprehensiveXMLValidation parse (sanitizeXML (JSVal.vstr s)) =
        comprehensiveXMLValidation parse (JSVal.vstr s) := by
  intro parse s h
  simp only [noSanitizeMatch, Bool.and_eq_true, Bool.not_eq_true'] at h
  obtain ⟨⟨hm1, hm2⟩, hm3⟩ := h
  have hid : sanitizeStr s = s := by
    unfold sanitizeStr
    rw [replaceScan_id hm1, replaceScan_id hm2, replaceScan_id hm3]
  refine ⟨hid, ?_⟩
  cases s with
  | nil => rfl
  | cons c cs =>
    show comprehensiveXMLValidation parse (JSVal.vstr (sanitizeStr (c :: cs))) = _
    rw [hid]

/-- C5 (amended, witness): plain text without attribute-quote sequences
is fixed by the Sanitizer. -/
theorem c5_sanitizer_amended_witness :
    sanitizeStr (("abc").toList) = ("abc").toList ∧
    comprehensiveXMLValidation permissiveParse
        (sanitizeXML (JSVal.vstr (("abc").toList))) =
      comprehensiveXMLValidation permissiveParse (JSVal.vstr (("abc").toList)) :=
  c5_sanitizer_amended permissiveParse (("abc").toList) (by decide)

/-- C6 (counterexample): on this candidate the initial diagnostic does
not mention quoting, yet the current pipeline still sanitizes before
rebuilding — its accepted document differs from the one the claimed
quote-conditional policy would accept. -/
theorem c6_counterexample :
    containsSub (("quote").toList)
      (comprehensiveXMLValidation permissiveParse (JSVal.vstr docC6)).error = false ∧
    (pipelineDriver permissiveParse docC6).1 ≠
      (quoteConditionalDriver permissiveParse docC6).1 := by
  refine ⟨by decide, by decide⟩

/-- C6 (amended): in the current pipeline driver the Sanitizer is applied
unconditionally on every validation failure (followed by revalidation),
not only when the diagnostic mentions quoting; the driver is exactly the
validate, always-sanitize-and-revalidate, rebuild-and-revalidate
policy. -/
theorem c6_driver_always_sanitizes :
    ∀ (parse : JSVal → ParserOutcome) (s : List Char),
      pipelineDriver parse s = alwaysSanitizeDriver parse s := by
  intro parse s
  by_cases h1 : (comprehensiveXMLValidation parse (JSVal.vstr s)).valid = true
  · simp [pipelineDriver, alwaysSanitizeDriver, h1]
  · have h1f : (comprehensiveXMLValidation parse (JSVal.vstr s)).valid = false := by
      simpa using h1
    by_cases h2 : (comprehensiveXMLValidation parse
        (JSVal.vstr (sanitizeStr s))).valid = true
    · simp [pipelineDriver, alwaysSanitizeDriver, h1f, h2]
    · have h2f : (comprehensiveXMLValidation parse
          (JSVal.vstr (sanitizeStr s))).valid = false := by
        simpa using h2
      by_cases h3 : containsSub procOpenS (sanitizeStr s) = true
      · simp [pipelineDriver, alwaysSanitizeDriver, h1f, h2f, h3]
      · have h3f : containsSub procOpenS (sanitizeStr s) = false := by
          simpa using h3
        have hpm : processMatch (sanitizeStr s) = none :=
          processMatch_none_of_not_contains h3f
        simp [pipelineDriver, alwaysSanitizeDriver, h1f, h2f, h3f, hpm]

/-- C2: in every request that ends in a provider error, a timeout, or a
candidate document that no validation or repair strategy accepts, each
response the handler sends carries `updatedDiagramXML` equal to the
caller-supplied original `diagramXML`; the handler is a total function,
so no error propagates out of it. -/
theorem c2_failure_returns_original :
    ∀ (parse : JSVal → ParserOutcome) (dXML : JSVal) (tf : Bool)
      (settle : ProviderSettle),
      failureScenario parse dXML tf settle →
      ∀ r ∈ runChat parse dXML tf settle, r.updatedDiagramXML = dXML := by
  intro parse dXML tf settle hfs r hr
  cases tf with
  | true =>
    have hrc : runChat parse dXML true settle = [timeoutResponse dXML] := by
      cases settle <;> rfl
    rw [hrc] at hr
    simp at hr
    rw [hr]
    rfl
  | false =>
    rcases hfs with h | h | h
    · exact absurd h (by simp)
    · subst h
      have hrc : runChat parse dXML false ProviderSettle.err = [errorResponse dXML] := rfl
      rw [hrc] at hr
      simp at hr
      rw [hr]
      rfl
    · obtain ⟨raw, parsed, hset, hno⟩ := h
      subst hset
      cases hcp : chatProcess parse dXML (llmOf dXML raw parsed) with
      | none =>
        have hrc : runChat parse dXML false (ProviderSettle.ok raw parsed) =
            [errorResponse dXML] := by
          unfold runChat
          simp [hcp, guardSend]
        rw [hrc] at hr
        simp at hr
        rw [hr]
        rfl
      | some resp =>
        have hrc : runChat parse dXML false (ProviderSettle.ok raw parsed) = [resp] := by
          unfold runChat
          simp [hcp, guardSend]
        rw [hrc] at hr
        simp at hr
        rw [hr]
        rcases chatProcess_updated parse dXML (llmOf dXML raw parsed) resp hcp with
          h | ⟨s, t, hx, hd, _⟩
        · exact h
        · exact absurd hd (by rw [hno s hx]; simp)

/-- C2 (witness): a timed-out request answers with the original
document. -/
theorem c2_failure_returns_original_witness :
    (timeoutResponse (JSVal.vstr (("d").toList))).updatedDiagramXML =
      JSVal.vstr (("d").toList) :=
  c2_failure_returns_original permissiveParse (JSVal.vstr (("d").toList)) true
    ProviderSettle.err (Or.inl rfl) (timeoutResponse (JSVal.vstr (("d").toList)))
    (by decide)

/-- C3: every execution of the chat handler sends exactly one HTTP
response; when the timeout response went out first, the late provider
result is discarded by the response-already-sent guard, and the one
response is the timeout response. -/
theorem c3_single_response :
    ∀ (parse : JSVal → ParserOutcome) (dXML : JSVal) (tf : Bool)
      (settle : ProviderSettle),
      (runChat parse dXML tf settle).length = 1 ∧
      (tf = true → runChat parse dXML tf settle = [timeoutResponse dXML]) := by
  intro parse dXML tf settle
  cases tf with
  | true =>
    have hrc : runChat parse dXML true settle = [timeoutResponse dXML] := by
      cases settle <;> rfl
    exact ⟨by rw [hrc]; rfl, fun _ => hrc⟩
  | false =>
    refine ⟨?_, by intro h; exact absurd h (by simp)⟩
    cases settle with
    | err => rfl
    | ok raw parsed =>
      cases hcp : chatProcess parse dXML (llmOf dXML raw parsed) with
      | none =>
        unfold runChat
        simp [hcp, guardSend]
      | some resp =>
        unfold runChat
        simp [hcp, guardSend]

/-- C8: in batched mode with `xmlBatchCount = n` and parts `1..n` all
present (non-empty), the reconstructed text assigned to
`updatedDiagramXML` is exactly the concatenation of the parts in
ascending index order. -/
theorem c8_batched_reconstruction :
    ∀ (L : LLMFields) (parts : List (List Char)),
      L.xmlBatched = true →
      L.xmlBatchCount = parts.length →
      parts ≠ [] →
      (∀ p ∈ parts, p ≠ []) →
      (∀ i (h : i < parts.length), L.xmlBatch (i + 1) = some (parts.get ⟨i, h⟩)) →
      (applyBatching L).updatedDiagramXML = JSVal.vstr parts.flatten := by
  intro L parts hb hc hne hpne hf
  have hrec : reconstructBatches L.xmlBatch parts.length = parts.flatten :=
    reconstructBatches_eq_flatten parts L.xmlBatch hf
  have hflat : parts.flatten.isEmpty = false := by
    cases parts with
    | nil => exact absurd rfl hne
    | cons p ps =>
      have hp : p ≠ [] := hpne p (by simp)
      cases p with
      | nil => exact absurd rfl hp
      | cons a as => simp
  have hcnt : (L.xmlBatchCount != 0) = true := by
    rw [hc]
    cases parts with
    | nil => exact absurd rfl hne
    | cons p ps => simp
  unfold applyBatching
  rw [hb, hcnt, hc, hrec]
  simp [hflat]

/-- C8 (witness): two parts reconstruct to their concatenation. -/
theorem c8_batched_reconstruction_witness :
    (applyBatching llmW).updatedDiagramXML =
      JSVal.vstr (([("ab").toList, ("cd").toList]).flatten) :=
  c8_batched_reconstruction llmW [("ab").toList, ("cd").toList] rfl rfl
    (by decide) (by decide) (by decide)

end BPMN
